import Mathlib

/-!
# scrumpolice: the team-edition dialog module (`bot/teambotmodule.go`)

A shallow embedding of the conversational wizards of `bot/teambotmodule.go`
(create team, edit team membership, delete team) and proofs about them.

Modelling conventions.

* The Go methods on `*Bot` become functions `Bot → ... → Bool × Bot`: the bot state is
  passed explicitly and returned next to the Go return value.
* The collaborators (the Slack client, the team repository `scrum.Service`, the logger,
  the cron parser, the Unicode tables behind `strings.ToLower`) are outside the module.
  Every call made to them is appended to `Bot.calls`; what they answer is given by an
  environment `Env` whose functions see the whole history of calls made so far, so that
  a collaborator may answer differently (and fail or succeed) at each call.
* The Go closures stored in `b.userContexts` are defunctionalised: `StepFunc` has one
  constructor per function literal passed to `canQuitBotContextHandlerFunc`, holding the
  variables that the literal captures, and `StepFunc.call` is the body of the literal.
* The helpers `canQuitBotContextHandlerFunc`, `setUserContext`, `unsetUserContext`,
  `logSlackRelatedError` and `getParams` live outside `teambotmodule.go`; they are
  modelled from the specification and marked so.
* Go `int` is taken to be 64 bits wide.
-/

namespace Scrumpolice

/-! ## Data model -/

/-- A Go `error` value: `none` is `nil`. -/
abbrev error := Option String

/-- The fields of `slack.MessageEvent` that the module reads. -/
structure MessageEvent where
  User : String
  Channel : String
  Text : String
deriving DecidableEq, Repr

/-- The value `cron.Parse` returns (a schedule firing at a constant delay, in seconds). -/
structure Schedule where
  Delay : Int
deriving DecidableEq, Repr

/-- The record `scrum.QuestionSet`; durations are in nanoseconds, as `time.Duration`. -/
structure QuestionSet where
  Questions : List String
  FirstReminderBeforeReport : Int
  LastReminderBeforeReport : Int
  ReportScheduleCron : String
  ReportSchedule : Schedule
deriving DecidableEq, Repr

/-- The record `scrum.Team`. -/
structure Team where
  Name : String
  Channel : String
  Members : List String
  SplitReport : Bool
  OutOfOffice : List String
  QuestionsSets : List QuestionSet
deriving DecidableEq, Repr

/-- One call made by the module to a collaborator, with its arguments. -/
inductive Call where
  | GetUserInfo (user : String)
  | PostMessage (channel text : String) (attachments : List String)
  | GetTeams
  | GetTeamsForUser (username : String)
  | AddTeam (team : Team)
  | DeleteTeam (team : String)
  | AddToTeam (team username : String)
  | RemoveFromTeam (team username : String)
  | LogError (message : String) (err : error)
  | LogInfo (message : String) (fields : List (String × String))
  | Println (params : List (String × String))
deriving DecidableEq, Repr

/-- The repository mutations among the calls: `AddTeam`, `DeleteTeam`, `AddToTeam`,
`RemoveFromTeam`. -/
def Call.isMutation : Call → Bool
  | .AddTeam _ => true
  | .DeleteTeam _ => true
  | .AddToTeam _ _ => true
  | .RemoveFromTeam _ _ => true
  | _ => false

/-- The repository mutations of a history of calls, in order. -/
def mutations (calls : List Call) : List Call := calls.filter Call.isMutation

/-- The answers of the collaborators. Each function receives the calls made so far.
`GetUserInfo` answers the user's `Name` or an error; `PostMessage` answers its error. -/
structure Env where
  GetUserInfo : List Call → String → Except String String
  PostMessage : List Call → String → String → error
  GetTeams : List Call → List String
  GetTeamsForUser : List Call → String → List String
  cronParse : String → Schedule
  ToLower : String → String

/-- The two function literals of type `ChosenTeamFunc` in the module: the one of
`startTeamEdition` (calls `choosenTeamToEdit`) and the one of `startTeamDeletion`
(calls `chosenTeamToDelete`). Neither captures a variable other than `b`. -/
inductive ChosenTeamFunc where
  | edit
  | delete
deriving DecidableEq, Repr

/-- The function literals handed to `canQuitBotContextHandlerFunc`, with the variables
they capture. -/
inductive StepFunc where
  /-- the literal in `chosenTeamToDelete`; `expected` is `"remove team "+team` -/
  | confirmDelete (team : String)
  /-- the literal in `chooseTeamName` -/
  | teamName
  /-- the literal in `chooseTeamToEdit`; `teams` is the sorted slice -/
  | selectTeam (teams : List String) (cb : ChosenTeamFunc)
  /-- the literal in `choosenTeamToEdit`; the captured `err` is `nil` there -/
  | editTeam (team : String)
deriving DecidableEq, Repr

/-- A `BotContextHandler` installed by this module: always the result of
`canQuitBotContextHandlerFunc`. -/
inductive BotContextHandler where
  | canQuit (handler : StepFunc)
deriving DecidableEq, Repr

/-- The state of `*Bot` seen by the module: the map `userContexts` and the history of
the calls made to the collaborators. -/
structure Bot where
  userContexts : String → Option BotContextHandler
  calls : List Call

/-! ## Library functions -/

/-- Go `strings.HasPrefix`. -/
def strings_HasPrefix (s pre : String) : Bool := pre.data.isPrefixOf s.data

/-- Go string order (`<=`): lexicographic on the UTF-8 bytes, which is the
lexicographic order on the code points. -/
def strLE (a b : String) : Prop := a.data ≤ b.data

instance : DecidableRel strLE := fun a b => inferInstanceAs (Decidable (a.data ≤ b.data))

instance : IsTotal String strLE := ⟨fun a b => le_total a.data b.data⟩

instance : IsTrans String strLE := ⟨fun _ _ _ h1 h2 => le_trans (α := List Char) h1 h2⟩

/-- Go `sort.Strings`: the slice in increasing order. -/
def sort_Strings (teams : List String) : List String := List.insertionSort strLE teams

/-- The value of a decimal digit. -/
def digitVal (c : Char) : Option Nat :=
  if 48 ≤ c.toNat ∧ c.toNat ≤ 57 then some (c.toNat - 48) else none

/-- The number read from a run of decimal digits, most significant first, continuing
from `acc`; `none` when a character is not a digit. -/
def parseDigits : List Char → Nat → Option Nat
  | [], acc => some acc
  | c :: cs, acc =>
    match digitVal c with
    | none => none
    | some d => parseDigits cs (acc * 10 + d)

/-- Go `strconv.Atoi` for a 64-bit `int`: an optional sign and at least one decimal
digit. A syntax error gives `0`, a value out of range gives the nearest bound; both
come with an error. (On a run of digits that overflows before a character that is not
a digit, Go reports the range error and this function the syntax error; the callers
only test that there is an error.) -/
def strconv_Atoi (s : String) : Int × error :=
  let neg := s.data.head? = some '-'
  let ds := if s.data.head? = some '-' ∨ s.data.head? = some '+' then s.data.tail else s.data
  if ds = [] then (0, some "invalid syntax") else
  match parseDigits ds 0 with
  | none => (0, some "invalid syntax")
  | some n =>
    if neg then
      if n ≤ 2 ^ 63 then (-(n : Int), none) else (-(2 ^ 63 : Int), some "value out of range")
    else
      if n < 2 ^ 63 then ((n : Int), none) else ((2 ^ 63 - 1 : Int), some "value out of range")

/-- Go `fmt.Sprintf("%d - %s", i, team)` for a slice index `i`. -/
def sprintfChoice (i : Nat) (team : String) : String := Nat.repr i ++ " - " ++ team

/-- A Go `map[string]string`, as an association list with distinct keys. -/
abbrev StringMap := List (String × String)

/-- Go `m[key]` on a `map[string]string`: the empty string when the key is missing. -/
def StringMap.get (m : StringMap) (key : String) : String := (m.lookup key).getD ""

/-! ## The parameter extractor -/

/-- The regular expressions needed for the pattern of the edit step: a fragment of the
Go `regexp` syntax in which a repetition applies to a character class. -/
inductive Regex where
  | empty
  | rune (p : Char → Bool)
  | cat (r s : Regex)
  | alt (r s : Regex)
  | star (p : Char → Bool)
  | plus (p : Char → Bool)
  | capture (name : String) (r : Regex)

/-- The matches of a greedy `p*` at the start of `s`, longest first, each continued
by `k`. -/
def starLoop (p : Char → Bool) (k : List Char → Option StringMap) :
    List Char → Option StringMap
  | [] => k []
  | c :: cs => if p c then (starLoop p k cs).orElse (fun _ => k (c :: cs)) else k (c :: cs)

/-- Backtracking match of `r` at the start of `s`, in the preference order of Go
`regexp` (leftmost-first: the first alternative first, the longest repetition first).
`k` receives the rest of the text and the groups captured so far. -/
def Regex.run : Regex → List Char → StringMap →
    (List Char → StringMap → Option StringMap) → Option StringMap
  | .empty, s, caps, k => k s caps
  | .rune p, s, caps, k =>
    match s with
    | [] => none
    | c :: cs => if p c then k cs caps else none
  | .cat r1 r2, s, caps, k => r1.run s caps (fun s1 caps1 => r2.run s1 caps1 k)
  | .alt r1 r2, s, caps, k => (r1.run s caps k).orElse (fun _ => r2.run s caps k)
  | .star p, s, caps, k => starLoop p (fun s1 => k s1 caps) s
  | .plus p, s, caps, k =>
    match s with
    | [] => none
    | c :: cs => if p c then starLoop p (fun s1 => k s1 caps) cs else none
  | .capture name r, s, caps, k =>
    r.run s caps (fun s1 caps1 =>
      k s1 (caps1 ++ [(name, String.mk (s.take (s.length - s1.length)))]))

/-- The named groups of a match of `r` that covers the whole text, in the preference
order of `Regex.run`; `none` when no match of `r` covers the text. -/
def Regex.matchWhole (r : Regex) (text : List Char) : Option StringMap :=
  r.run text [] (fun rest caps => if rest = [] then some caps else none)

/-- A literal string; under the flag `(?i)` each letter also matches in the other case. -/
def Regex.literal (foldCase : Bool) : List Char → Regex
  | [] => .empty
  | c :: cs =>
    .cat (.rune (fun x => x = c || (foldCase && x.toLower = c.toLower)))
      (Regex.literal foldCase cs)

/-- The class `.` of Go `regexp` without the flag `s`: any character but a newline. -/
def anyCharNotNL (c : Char) : Bool := c != '\n'

/-- The class `\s` of Go `regexp`: `[\t\n\f\r ]`. -/
def perlSpace (c : Char) : Bool :=
  c = '\t' || c = '\n' || c = Char.ofNat 12 || c = '\r' || c = ' '

/-- The pattern of the edit step,
`(?i)(?P<action>add|remove) <@(?P<user>.+)>\s*`. -/
def actionPattern : Regex :=
  .cat (.capture "action" (.alt (Regex.literal true "add".data) (Regex.literal true "remove".data)))
    (.cat (Regex.literal true " <@".data)
      (.cat (.capture "user" (.plus anyCharNotNL))
        (.cat (Regex.literal true ">".data) (.star perlSpace))))

/-- Modelled from the spec: `getParams`, which is not in `teambotmodule.go`. The spec
(4.4): the input is a pattern with named capture groups and a subject string, the
output is the mapping from group name to captured substring; if the pattern does not
match, the mapping is empty. The spec (8): `add <@U123>` yields the action `add` and the
user `U123`, and `addremove <@U123>` yields no usable extraction; so the pattern is
matched against the subject as a whole, and a subject that only contains a match, as
`addremove <@U123>` contains `remove <@U123>`, does not match. -/
def getParams (regEx : Regex) (text : String) : StringMap :=
  match regEx.matchWhole text.data with
  | none => []
  | some caps => caps

/-! ## Calls to the collaborators -/

/-- Append a call to the history. -/
def Bot.emit (b : Bot) (c : Call) : Bot := { b with calls := b.calls ++ [c] }

/-- The call `b.slackBotAPI.GetUserInfo(user)`. -/
def slackGetUserInfo (env : Env) (b : Bot) (user : String) : Except String String × Bot :=
  (env.GetUserInfo b.calls user, b.emit (.GetUserInfo user))

/-- The call `b.slackBotAPI.PostMessage(channel, text, params)`; `attachments` are the
texts of `params.Attachments`. The result is the returned error. -/
def slackPostMessage (env : Env) (b : Bot) (channel text : String)
    (attachments : List String) : error × Bot :=
  (env.PostMessage b.calls channel text, b.emit (.PostMessage channel text attachments))

/-- The call `b.scrum.GetTeams()`. -/
def scrumGetTeams (env : Env) (b : Bot) : List String × Bot :=
  (env.GetTeams b.calls, b.emit .GetTeams)

/-- The call `b.scrum.GetTeamsForUser(username)`. -/
def scrumGetTeamsForUser (env : Env) (b : Bot) (username : String) : List String × Bot :=
  (env.GetTeamsForUser b.calls username, b.emit (.GetTeamsForUser username))

/-- A call of `log.WithFields(fields).Info(message)`. -/
def logInfo (b : Bot) (message : String) (fields : List (String × String)) : Bot :=
  b.emit (.LogInfo message fields)

/-- Modelled from the spec: `logSlackRelatedError`, which is not in `teambotmodule.go`.
The spec (6, 7): a collaborator failure is logged; the logging sink is fire-and-forget. -/
def logSlackRelatedError (b : Bot) (_event : MessageEvent) (err : error)
    (logMessage : String) : Bot :=
  b.emit (.LogError logMessage err)

/-- Modelled from the spec: `setUserContext`, which is not in `teambotmodule.go`.
The spec (4.3): `Set(userID, handler)` overwrites unconditionally. -/
def setUserContext (b : Bot) (user : String) (handler : BotContextHandler) : Bot :=
  { b with userContexts := fun u => if u = user then some handler else b.userContexts u }

/-- Modelled from the spec: `unsetUserContext`, which is not in `teambotmodule.go`.
The spec (4.3): `Unset(userID)`. -/
def unsetUserContext (b : Bot) (user : String) : Bot :=
  { b with userContexts := fun u => if u = user then none else b.userContexts u }

/-! ## The module `bot/teambotmodule.go` -/

/-- The method `cancelTeamEdition`. -/
def cancelTeamEdition (env : Env) (b : Bot) (event : MessageEvent) : Bool × Bot :=
  let info := slackGetUserInfo env b event.User
  let b := info.2
  match info.1 with
  | .error err =>
    (false, logSlackRelatedError b event (some err) "Fail to get user information.")
  | .ok _ =>
    let b := (slackPostMessage env b event.Channel
      "Team edition was cancelled. Better luck next time!" []).2
    (false, b)

/-- Modelled from the spec: `canQuitBotContextHandlerFunc`, which is not in
`teambotmodule.go`. The spec (4.2): wraps a step handler `H`; if the message text equals
the literal cancellation keyword, perform the cancellation side effect (notify the
user), clear the user's context, return `false`; otherwise delegate to `H` and return
its result unchanged. -/
def canQuitBotContextHandlerFunc (handler : StepFunc) : BotContextHandler :=
  .canQuit handler

/-- The method `chooseTeamAction`. -/
def chooseTeamAction (env : Env) (b : Bot) (event : MessageEvent)
    (team action username : String) : Bool × Bot :=
  if action = "add" then
    let b := b.emit (.AddToTeam team username)
    let b := (slackPostMessage env b event.Channel
      ("I've added @" ++ username ++ " to team " ++ team) []).2
    let info := slackGetUserInfo env b event.User
    let b := info.2
    match info.1 with
    | .error err =>
      (false, logSlackRelatedError b event (some err) "Fail to get user information.")
    | .ok author =>
      let b := (slackPostMessage env b ("@" ++ username)
        ("You've been added in team " ++ team ++ " by @" ++ author ++ ".") []).2
      let b := logInfo b "User was added to team."
        [("user", username), ("team", team), ("doneBy", author)]
      (false, unsetUserContext b event.User)
  else if action = "remove" then
    let b := b.emit (.RemoveFromTeam team username)
    let b := (slackPostMessage env b event.Channel
      ("I've removed @" ++ username ++ " to team " ++ team) []).2
    let info := slackGetUserInfo env b event.User
    let b := info.2
    match info.1 with
    | .error err =>
      (false, logSlackRelatedError b event (some err) "Fail to get user information.")
    | .ok author =>
      let b := (slackPostMessage env b ("@" ++ username)
        ("You've been removed from team " ++ team ++ " by @" ++ author ++ ".") []).2
      let b := logInfo b "User was removed from team."
        [("user", username), ("team", team), ("doneBy", author)]
      (false, unsetUserContext b event.User)
  else
    (false, unsetUserContext b event.User)

/-- The method `choosenTeamToEdit`: prompt, then install the edit step. -/
def choosenTeamToEdit (env : Env) (b : Bot) (event : MessageEvent) (team : String) :
    Bool × Bot :=
  let message :=
    "- `add @name`: Add *@name* to team\n" ++ "- `remove @name`: Remove *@name* from team"
  let posted := slackPostMessage env b event.Channel ("What do you want to do with team" ++ team)
    [message]
  let b := posted.2
  match posted.1 with
  | some err =>
    (false, logSlackRelatedError b event (some err) "Fail to post message to slack.")
  | none =>
    (false, setUserContext b event.User (canQuitBotContextHandlerFunc (.editTeam team)))

/-- The method `chosenTeamToDelete`: prompt, then install the confirmation step. -/
def chosenTeamToDelete (env : Env) (b : Bot) (event : MessageEvent) (team : String) :
    Bool × Bot :=
  let expected := "remove team " ++ team
  let msg := "Type `" ++ expected ++ "` to delete the team or type `quit`"
  let b := (slackPostMessage env b event.Channel msg []).2
  (false, setUserContext b event.User (canQuitBotContextHandlerFunc (.confirmDelete team)))

/-- A call `cb(event, team)` of a `ChosenTeamFunc`. -/
def ChosenTeamFunc.call (env : Env) (cb : ChosenTeamFunc) (b : Bot) (event : MessageEvent)
    (team : String) : Bool × Bot :=
  match cb with
  | .edit => choosenTeamToEdit env b event team
  | .delete => chosenTeamToDelete env b event team

/-- The method `chooseTeamName`: prompt, then install the name step. -/
def chooseTeamName (env : Env) (b : Bot) (event : MessageEvent) : Bool × Bot :=
  let msg := "What should be the team name?"
  let b := (slackPostMessage env b event.Channel msg []).2
  (false, setUserContext b event.User (canQuitBotContextHandlerFunc .teamName))

/-- The menu text of `chooseTeamToEdit` for the sorted slice `teams`. -/
def teamMenu (teams : List String) : String :=
  let choices := teams.enum.map (fun it => sprintfChoice it.1 it.2)
  "Choose a team :\n" ++ "\n".intercalate choices

/-- The method `chooseTeamToEdit`: render the menu of the requester's teams, then
install the selection step. -/
def chooseTeamToEdit (env : Env) (b : Bot) (event : MessageEvent) (cb : ChosenTeamFunc) :
    Bool × Bot :=
  let info := slackGetUserInfo env b event.User
  let b := info.2
  match info.1 with
  | .error err =>
    (false, logSlackRelatedError b event (some err) "Fail to get user information.")
  | .ok user =>
    let found := scrumGetTeamsForUser env b user
    let teams := found.1
    let b := found.2
    if teams.length = 0 then
      let b := (slackPostMessage env b event.Channel
        "There is no teams, use 'create team' to create a new team" []).2
      (false, b)
    else
      let teams := sort_Strings teams
      let b := (slackPostMessage env b event.Channel (teamMenu teams) []).2
      (false, setUserContext b event.User
        (canQuitBotContextHandlerFunc (.selectTeam teams cb)))

/-- The team record built by the name step for the name `newTeamName` and the author
name `author`. -/
def newTeam (env : Env) (newTeamName author : String) : Team :=
  let members := [author]
  let firstReminderBefore : Int := -8 * 1000000000
  let lastReminderBefore : Int := -8 * 1000000000
  let schedule := env.cronParse "@every 30s"
  let questions : List QuestionSet := [{
    Questions := ["What did you do yesterday?", "What will you do today?",
      "Are you being blocked by someone for a review? who? why?"]
    FirstReminderBeforeReport := firstReminderBefore
    LastReminderBeforeReport := lastReminderBefore
    ReportScheduleCron := "@every 30s"
    ReportSchedule := schedule }]
  { Name := newTeamName
    Channel := "@" ++ author
    Members := members
    SplitReport := true
    OutOfOffice := []
    QuestionsSets := questions }

/-- The bodies of the function literals handed to `canQuitBotContextHandlerFunc`. -/
def StepFunc.call (env : Env) (step : StepFunc) (b : Bot) (event : MessageEvent) :
    Bool × Bot :=
  match step with
  | .confirmDelete team =>
    let expected := "remove team " ++ team
    if event.Text = expected then
      let info := slackGetUserInfo env b event.User
      let b := info.2
      match info.1 with
      | .error err =>
        (false, logSlackRelatedError b event (some err) "Fail to get user information.")
      | .ok author =>
        let b := b.emit (.DeleteTeam team)
        let b := (slackPostMessage env b event.Channel ("I've deleted the team " ++ team) []).2
        let b := logInfo b "Team was deleted." [("team", team), ("doneBy", author)]
        (false, unsetUserContext b event.User)
    else
      chosenTeamToDelete env b event team
  | .teamName =>
    let found := scrumGetTeams env b
    let teams := found.1
    let b := found.2
    let newTeamName := event.Text
    if teams.contains newTeamName then
      let b := (slackPostMessage env b event.Channel
        "Team already exists, choose a new name or type `quit`" []).2
      let b := (chooseTeamName env b event).2
      (false, b)
    else
      let info := slackGetUserInfo env b event.User
      let b := info.2
      match info.1 with
      | .error err =>
        (false, logSlackRelatedError b event (some err) "Fail to get user information.")
      | .ok author =>
        let b := b.emit (.AddTeam (newTeam env newTeamName author))
        choosenTeamToEdit env b event newTeamName
  | .selectTeam teams cb =>
    let parsed := strconv_Atoi event.Text
    let i := parsed.1
    let err := parsed.2
    if i < 0 ∨ i ≥ (teams.length : Int) ∨ err ≠ none then
      let b := (slackPostMessage env b event.Channel
        "Wrong choices, please try again :p or type `quit`" []).2
      let b := (chooseTeamToEdit env b event cb).2
      (false, b)
    else
      cb.call env b event (teams.getD i.toNat "")
  | .editTeam team =>
    let params := getParams actionPattern event.Text
    let b := b.emit (.Println params)
    if params.length = 0 ∨ params.get "action" = "" ∨ params.get "user" = "" then
      let b := (slackPostMessage env b event.Channel
        "Wrong choices, please try again :p or type `quit`" []).2
      let b := (choosenTeamToEdit env b event team).2
      (false, b)
    else
      let userId := params.get "user"
      let b := logSlackRelatedError b event none ("Fail to get user information. user:" ++ userId)
      let info := slackGetUserInfo env b userId
      let b := info.2
      match info.1 with
      | .error err =>
        let b := logSlackRelatedError b event (some err) "Fail to get user information."
        let b := (slackPostMessage env b event.Channel
          "Hmmmm, I couldn't find the user. Try again!" []).2
        let b := (choosenTeamToEdit env b event team).2
        (false, b)
      | .ok username =>
        chooseTeamAction env b event team (params.get "action") username

/-- Modelled from the spec: the method `HandleMessage` of a handler made by
`canQuitBotContextHandlerFunc`, which is not in `teambotmodule.go`. The spec (4.2): if
the message text equals the literal cancellation keyword (`quit`), perform the
cancellation side effect (`cancelTeamEdition`), clear the user's context, return
`false`; otherwise delegate to the wrapped handler and return its result unchanged. -/
def BotContextHandler.HandleMessage (env : Env) (context : BotContextHandler) (b : Bot)
    (event : MessageEvent) : Bool × Bot :=
  match context with
  | .canQuit handler =>
    if event.Text = "quit" then
      let b := (cancelTeamEdition env b event).2
      (false, unsetUserContext b event.User)
    else
      handler.call env b event

/-- The method `startTeamDeletion`. -/
def startTeamDeletion (env : Env) (b : Bot) (event : MessageEvent) : Bool × Bot :=
  let info := slackGetUserInfo env b event.User
  let b := info.2
  match info.1 with
  | .error err =>
    let b := logSlackRelatedError b event (some err) "Fail to get user information."
    let b := (slackPostMessage env b event.Channel
      "There was an error editing the team, please try again" []).2
    (false, b)
  | .ok _ => chooseTeamToEdit env b event .delete

/-- The method `startTeamCreation`. -/
def startTeamCreation (env : Env) (b : Bot) (event : MessageEvent) : Bool × Bot :=
  let info := slackGetUserInfo env b event.User
  let b := info.2
  match info.1 with
  | .error err =>
    let b := logSlackRelatedError b event (some err) "Fail to get user information."
    let b := (slackPostMessage env b event.Channel
      "There was an error editing the team, please try again" []).2
    (false, b)
  | .ok _ => chooseTeamName env b event

/-- The method `startTeamEdition`. -/
def startTeamEdition (env : Env) (b : Bot) (event : MessageEvent) : Bool × Bot :=
  let info := slackGetUserInfo env b event.User
  let b := info.2
  match info.1 with
  | .error err =>
    let b := logSlackRelatedError b event (some err) "Fail to get user information."
    let b := (slackPostMessage env b event.Channel
      "There was an error editing the team, please try again" []).2
    (false, b)
  | .ok _ => chooseTeamToEdit env b event .edit

/-- The method `HandleTeamEditionMessage`: `true` lets the bot go on processing the
message, `false` stops it. -/
def HandleTeamEditionMessage (env : Env) (b : Bot) (event : MessageEvent) : Bool × Bot :=
  match b.userContexts event.User with
  | some context => context.HandleMessage env b event
  | none =>
    if strings_HasPrefix (env.ToLower event.Text) "edit team" then
      startTeamEdition env b event
    else if strings_HasPrefix (env.ToLower event.Text) "add team" then
      startTeamCreation env b event
    else if strings_HasPrefix (env.ToLower event.Text) "remove team" then
      startTeamDeletion env b event
    else
      (true, b)

/-! ## Observations and sample inputs -/

/-- The calls made between the state `b0` and a later state `b1`. -/
def madeCalls (b0 b1 : Bot) : List Call := b1.calls.drop b0.calls.length

/-- An environment in which every call succeeds: the user `U` is named `name-U`, the
repository holds the team `Alpha` and every user belongs to `Bravo` and `Alpha`. -/
def okEnv : Env where
  GetUserInfo := fun _ user => .ok ("name-" ++ user)
  PostMessage := fun _ _ _ => none
  GetTeams := fun _ => ["Alpha"]
  GetTeamsForUser := fun _ _ => ["Bravo", "Alpha"]
  cronParse := fun _ => { Delay := 30 }
  ToLower := fun s => String.mk (s.data.map Char.toLower)

/-- The environment `okEnv` with a user directory that fails at every lookup. -/
def lookupFailsEnv : Env := { okEnv with GetUserInfo := fun _ _ => .error "user_not_found" }

/-- The environment `okEnv` with a chat transport that fails at every post. -/
def postFailsEnv : Env := { okEnv with PostMessage := fun _ _ _ => some "channel_not_found" }

/-- The environment `okEnv` in which the directory knows every user but `U1`. -/
def actorUnknownEnv : Env :=
  { okEnv with GetUserInfo := fun _ user =>
      if user = "U1" then .error "user_not_found" else .ok ("name-" ++ user) }

/-- The environment `okEnv` in which the repository answers the teams `Zulu` and
`Aardvark` for every user. -/
def changedTeamsEnv : Env := { okEnv with GetTeamsForUser := fun _ _ => ["Zulu", "Aardvark"] }

/-- The bot in which only `user` has a context, the step `step`, and no call was made. -/
def botAt (user : String) (step : StepFunc) : Bot where
  userContexts := fun u => if u = user then some (canQuitBotContextHandlerFunc step) else none
  calls := []

/-- The bot without any context and without any call made. -/
def idleBot : Bot where
  userContexts := fun _ => none
  calls := []

/-- The calls made while the message `event` is handled in the state `b`. -/
def callsHandling (env : Env) (b : Bot) (event : MessageEvent) : List Call :=
  madeCalls b (HandleTeamEditionMessage env b event).2

/-- The context of the sender of `event` after the message is handled in the state `b`. -/
def contextAfter (env : Env) (b : Bot) (event : MessageEvent) : Option BotContextHandler :=
  (HandleTeamEditionMessage env b event).2.userContexts event.User

/-- The message `event` fails the validation of the step: the text is not the expected
confirmation; the name is one returned by `GetTeams`; the text is not an integer or is
an integer outside `0 .. len(teams)-1`; the text holds no usable add/remove instruction
or the lookup of the mentioned user fails. -/
def failsValidation (env : Env) (b : Bot) (event : MessageEvent) : StepFunc → Prop
  | .confirmDelete team => event.Text ≠ "remove team " ++ team
  | .teamName => event.Text ∈ env.GetTeams b.calls
  | .selectTeam teams _ =>
    ¬ ((strconv_Atoi event.Text).2 = none ∧ 0 ≤ (strconv_Atoi event.Text).1 ∧
        (strconv_Atoi event.Text).1 < (teams.length : Int))
  | .editTeam _ =>
    ((getParams actionPattern event.Text).length = 0 ∨
      (getParams actionPattern event.Text).get "action" = "" ∨
      (getParams actionPattern event.Text).get "user" = "") ∨
    ∃ err, env.GetUserInfo
      (b.calls ++ [.Println (getParams actionPattern event.Text),
        .LogError ("Fail to get user information. user:"
          ++ (getParams actionPattern event.Text).get "user") none])
      ((getParams actionPattern event.Text).get "user") = .error err

/-- The calls an edit step makes, for a usable instruction whose mentioned user is
found, up to the lookup of the actor: `mutation` is the membership call and `notice` the
text posted to the actor's channel. -/
def callsBeforeActorLookup (params : StringMap) (event : MessageEvent) (mutation : Call)
    (notice : String) : List Call :=
  [.Println params,
   .LogError ("Fail to get user information. user:" ++ params.get "user") none,
   .GetUserInfo (params.get "user"),
   mutation,
   .PostMessage event.Channel notice []]

/-! ## Basic facts -/

@[simp] theorem emit_calls (b : Bot) (c : Call) : (b.emit c).calls = b.calls ++ [c] := rfl

@[simp] theorem emit_userContexts (b : Bot) (c : Call) :
    (b.emit c).userContexts = b.userContexts := rfl

@[simp] theorem setUserContext_calls (b : Bot) (u : String) (h : BotContextHandler) :
    (setUserContext b u h).calls = b.calls := rfl

@[simp] theorem unsetUserContext_calls (b : Bot) (u : String) :
    (unsetUserContext b u).calls = b.calls := rfl

@[simp] theorem setUserContext_userContexts (b : Bot) (u v : String) (h : BotContextHandler) :
    (setUserContext b u h).userContexts v = if v = u then some h else b.userContexts v := rfl

@[simp] theorem unsetUserContext_userContexts (b : Bot) (u v : String) :
    (unsetUserContext b u).userContexts v = if v = u then none else b.userContexts v := rfl

/-- With an active step and a text other than `quit`, the router runs the step. -/
theorem handle_eq_call (env : Env) (b : Bot) (event : MessageEvent) (step : StepFunc)
    (hctx : b.userContexts event.User = some (canQuitBotContextHandlerFunc step))
    (hquit : event.Text ≠ "quit") :
    HandleTeamEditionMessage env b event = step.call env b event := by
  simp only [HandleTeamEditionMessage, hctx, canQuitBotContextHandlerFunc,
    BotContextHandler.HandleMessage, if_neg hquit]

/-! ## C1: the cancellation keyword -/

/-- C1: for every step installed by the module and every answer of the collaborators, a
message with the text `quit` from a user whose context is that step is answered `false`,
leaves the user without context, and the calls made while handling it include no
repository mutation. -/
theorem quit_cancels_every_step (env : Env) (b : Bot) (event : MessageEvent)
    (step : StepFunc)
    (hctx : b.userContexts event.User = some (canQuitBotContextHandlerFunc step))
    (hquit : event.Text = "quit") :
    (HandleTeamEditionMessage env b event).1 = false ∧
    (HandleTeamEditionMessage env b event).2.userContexts event.User = none ∧
    b.calls <+: (HandleTeamEditionMessage env b event).2.calls ∧
    mutations (madeCalls b (HandleTeamEditionMessage env b event).2) = [] := by
  simp only [HandleTeamEditionMessage, hctx, canQuitBotContextHandlerFunc,
    BotContextHandler.HandleMessage, if_pos hquit, cancelTeamEdition, slackGetUserInfo,
    slackPostMessage, logSlackRelatedError]
  split <;> simp [madeCalls, mutations, Call.isMutation]

/-- C1 at a concrete input: `quit` in the name step, where the wrapped step would have
created a team called `quit`. -/
theorem quit_cancels_every_step_witness :
    (botAt "U1" .teamName).userContexts "U1"
        = some (canQuitBotContextHandlerFunc .teamName) ∧
    (HandleTeamEditionMessage okEnv (botAt "U1" .teamName) ⟨"U1", "D1", "quit"⟩).1 = false ∧
    (HandleTeamEditionMessage okEnv (botAt "U1" .teamName)
        ⟨"U1", "D1", "quit"⟩).2.userContexts "U1" = none ∧
    (botAt "U1" .teamName).calls <+:
      (HandleTeamEditionMessage okEnv (botAt "U1" .teamName) ⟨"U1", "D1", "quit"⟩).2.calls ∧
    mutations (madeCalls (botAt "U1" .teamName)
      (HandleTeamEditionMessage okEnv (botAt "U1" .teamName) ⟨"U1", "D1", "quit"⟩).2) = [] ∧
    mutations (StepFunc.call okEnv .teamName (botAt "U1" .teamName)
      ⟨"U1", "D1", "quit"⟩).2.calls = [.AddTeam (newTeam okEnv "quit" "name-U1")] :=
  ⟨by decide,
   (quit_cancels_every_step okEnv (botAt "U1" .teamName) ⟨"U1", "D1", "quit"⟩ .teamName
      (by decide) rfl).1,
   (quit_cancels_every_step okEnv (botAt "U1" .teamName) ⟨"U1", "D1", "quit"⟩ .teamName
      (by decide) rfl).2.1,
   (quit_cancels_every_step okEnv (botAt "U1" .teamName) ⟨"U1", "D1", "quit"⟩ .teamName
      (by decide) rfl).2.2.1,
   (quit_cancels_every_step okEnv (botAt "U1" .teamName) ⟨"U1", "D1", "quit"⟩ .teamName
      (by decide) rfl).2.2.2,
   by decide⟩

/-! ## C2: no context and no trigger -/

/-- C2: for a user without context and a text whose lower-cased form has none of the
prefixes `edit team`, `add team`, `remove team`, the router answers `true` and the bot
state is unchanged: the same context store, no call made. -/
theorem no_context_no_trigger_unhandled (env : Env) (b : Bot) (event : MessageEvent)
    (hctx : b.userContexts event.User = none)
    (hedit : strings_HasPrefix (env.ToLower event.Text) "edit team" = false)
    (hadd : strings_HasPrefix (env.ToLower event.Text) "add team" = false)
    (hremove : strings_HasPrefix (env.ToLower event.Text) "remove team" = false) :
    HandleTeamEditionMessage env b event = (true, b) := by
  simp [HandleTeamEditionMessage, hctx, hedit, hadd, hremove]

/-- C2 at a concrete input: the text `create team` starts no wizard. -/
theorem no_context_no_trigger_unhandled_witness :
    idleBot.userContexts "U1" = none ∧
    strings_HasPrefix (okEnv.ToLower "Create team") "edit team" = false ∧
    strings_HasPrefix (okEnv.ToLower "Create team") "add team" = false ∧
    strings_HasPrefix (okEnv.ToLower "Create team") "remove team" = false ∧
    HandleTeamEditionMessage okEnv idleBot ⟨"U1", "D1", "Create team"⟩ = (true, idleBot) :=
  ⟨rfl, by decide, by decide, by decide,
   no_context_no_trigger_unhandled okEnv idleBot ⟨"U1", "D1", "Create team"⟩ rfl
     (by decide) (by decide) (by decide)⟩

/-! ## C3: an active context takes the message -/

/-- C3: for a user with the active context `H`, the router returns the result of `H` on
the message and the state `H` leaves: the triggers play no part. -/
theorem active_context_is_delegated (env : Env) (b : Bot) (event : MessageEvent)
    (H : BotContextHandler) (hctx : b.userContexts event.User = some H) :
    HandleTeamEditionMessage env b event = H.HandleMessage env b event := by
  simp only [HandleTeamEditionMessage, hctx]

/-- C3 at a concrete input: `add team` sent in the name step is taken as the name of
the team to create, and the user goes on to the edit step of the team `add team`. -/
theorem active_context_is_delegated_witness :
    (botAt "U1" .teamName).userContexts "U1"
        = some (canQuitBotContextHandlerFunc .teamName) ∧
    HandleTeamEditionMessage okEnv (botAt "U1" .teamName) ⟨"U1", "D1", "add team"⟩
      = (canQuitBotContextHandlerFunc .teamName).HandleMessage okEnv (botAt "U1" .teamName)
          ⟨"U1", "D1", "add team"⟩ ∧
    mutations (HandleTeamEditionMessage okEnv (botAt "U1" .teamName)
      ⟨"U1", "D1", "add team"⟩).2.calls = [.AddTeam (newTeam okEnv "add team" "name-U1")] ∧
    (HandleTeamEditionMessage okEnv (botAt "U1" .teamName)
      ⟨"U1", "D1", "add team"⟩).2.userContexts "U1"
        = some (canQuitBotContextHandlerFunc (.editTeam "add team")) :=
  ⟨by decide,
   active_context_is_delegated okEnv (botAt "U1" .teamName) ⟨"U1", "D1", "add team"⟩
     (canQuitBotContextHandlerFunc .teamName) (by decide),
   by decide, by decide⟩

/-! ## C10: the contexts of the other users -/

/-- A step leaves the context of every user other than the sender as it was. -/
theorem call_frame (env : Env) (b : Bot) (event : MessageEvent) (step : StepFunc)
    (u : String) (hu : u ≠ event.User) :
    (step.call env b event).2.userContexts u = b.userContexts u := by
  cases step <;>
  simp only [StepFunc.call, chooseTeamToEdit, choosenTeamToEdit, chosenTeamToDelete,
    chooseTeamName, chooseTeamAction, ChosenTeamFunc.call, slackGetUserInfo, slackPostMessage,
    logSlackRelatedError, logInfo, scrumGetTeamsForUser, scrumGetTeams]
  all_goals repeat' split
  all_goals simp [hu]

/-- A handler leaves the context of every user other than the sender as it was. -/
theorem HandleMessage_frame (env : Env) (b : Bot) (event : MessageEvent)
    (H : BotContextHandler) (u : String) (hu : u ≠ event.User) :
    (H.HandleMessage env b event).2.userContexts u = b.userContexts u := by
  cases H with
  | canQuit handler =>
    simp only [BotContextHandler.HandleMessage]
    split
    · simp only [cancelTeamEdition, slackGetUserInfo, slackPostMessage, logSlackRelatedError]
      split <;> simp [hu]
    · exact call_frame env b event handler u hu

/-- C10: for every state of the context store, every message and every answer of the
collaborators (failures included), handling the message leaves the context of every
user other than the sender of the message exactly as it was. -/
theorem other_users_contexts_unchanged (env : Env) (b : Bot) (event : MessageEvent)
    (u : String) (hu : u ≠ event.User) :
    (HandleTeamEditionMessage env b event).2.userContexts u = b.userContexts u := by
  simp only [HandleTeamEditionMessage]
  split
  · exact HandleMessage_frame env b event _ u hu
  · simp only [startTeamEdition, startTeamCreation, startTeamDeletion, chooseTeamToEdit,
      chooseTeamName, slackGetUserInfo, slackPostMessage, logSlackRelatedError,
      scrumGetTeamsForUser]
    repeat' split
    all_goals simp [hu]

/-- C10 at a concrete input: `U2` selects a team while `U1` is in the name step. -/
theorem other_users_contexts_unchanged_witness :
    "U1" ≠ (MessageEvent.mk "U2" "D2" "edit team").User ∧
    (HandleTeamEditionMessage okEnv (botAt "U1" .teamName)
      ⟨"U2", "D2", "edit team"⟩).2.userContexts "U1"
        = (botAt "U1" .teamName).userContexts "U1" ∧
    (HandleTeamEditionMessage okEnv (botAt "U1" .teamName)
      ⟨"U2", "D2", "edit team"⟩).2.userContexts "U2"
        = some (canQuitBotContextHandlerFunc (.selectTeam ["Alpha", "Bravo"] .edit)) :=
  ⟨by decide,
   other_users_contexts_unchanged okEnv (botAt "U1" .teamName) ⟨"U2", "D2", "edit team"⟩
     "U1" (by decide),
   by decide⟩

/-! ## C4: the name step of the team creation -/

/-- C4 fails as stated: with a name that is neither `quit` nor the name of a team, no
team is added when the lookup of the submitter fails; and when the team is added but
the prompt of the edit step cannot be posted, the context is still the name step. -/
theorem new_name_without_team_or_edit_step :
    ("Gamma" ≠ "quit" ∧ "Gamma" ∉ lookupFailsEnv.GetTeams [] ∧
      mutations (madeCalls (botAt "U1" .teamName)
        (HandleTeamEditionMessage lookupFailsEnv (botAt "U1" .teamName)
          ⟨"U1", "D1", "Gamma"⟩).2) = []) ∧
    ("Gamma" ∉ postFailsEnv.GetTeams [] ∧
      mutations (madeCalls (botAt "U1" .teamName)
        (HandleTeamEditionMessage postFailsEnv (botAt "U1" .teamName)
          ⟨"U1", "D1", "Gamma"⟩).2) = [.AddTeam (newTeam postFailsEnv "Gamma" "name-U1")] ∧
      (HandleTeamEditionMessage postFailsEnv (botAt "U1" .teamName)
        ⟨"U1", "D1", "Gamma"⟩).2.userContexts "U1"
          = some (canQuitBotContextHandlerFunc .teamName)) := by
  decide

/-- C4, amended: in the name step, for a text that is not `quit` and is not a name
returned by `GetTeams`, when the lookup of the submitter answers the name `author`,
exactly one repository mutation is made, `AddTeam` of a record whose `Name` is the text
and whose `Members` is `[author]`; when moreover the prompt of the edit step is posted
without error, the context of the submitter is the edit step of the new team. When the
lookup fails, no mutation is made and the context stays the name step. -/
theorem new_name_creates_team (env : Env) (b : Bot) (event : MessageEvent)
    (hctx : b.userContexts event.User = some (canQuitBotContextHandlerFunc .teamName))
    (hquit : event.Text ≠ "quit")
    (hnew : event.Text ∉ env.GetTeams b.calls) :
    (∀ author, env.GetUserInfo (b.calls ++ [.GetTeams]) event.User = .ok author →
      (HandleTeamEditionMessage env b event).1 = false ∧
      b.calls <+: (HandleTeamEditionMessage env b event).2.calls ∧
      mutations (madeCalls b (HandleTeamEditionMessage env b event).2)
        = [.AddTeam (newTeam env event.Text author)] ∧
      (newTeam env event.Text author).Name = event.Text ∧
      (newTeam env event.Text author).Members = [author] ∧
      (env.PostMessage
          (b.calls ++ [.GetTeams, .GetUserInfo event.User,
            .AddTeam (newTeam env event.Text author)])
          event.Channel ("What do you want to do with team" ++ event.Text) = none →
        (HandleTeamEditionMessage env b event).2.userContexts event.User
          = some (canQuitBotContextHandlerFunc (.editTeam event.Text)))) ∧
    (∀ err, env.GetUserInfo (b.calls ++ [.GetTeams]) event.User = .error err →
      (HandleTeamEditionMessage env b event).1 = false ∧
      b.calls <+: (HandleTeamEditionMessage env b event).2.calls ∧
      mutations (madeCalls b (HandleTeamEditionMessage env b event).2) = [] ∧
      (HandleTeamEditionMessage env b event).2.userContexts event.User
        = some (canQuitBotContextHandlerFunc .teamName)) := by
  rw [handle_eq_call env b event .teamName hctx hquit]
  have hnot : (env.GetTeams b.calls).contains event.Text = false := by
    simpa using hnew
  simp only [StepFunc.call, scrumGetTeams, hnot, slackGetUserInfo, emit_calls,
    choosenTeamToEdit, slackPostMessage, logSlackRelatedError, Bool.false_eq_true, if_false]
  refine ⟨?_, ?_⟩
  · intro author hauthor
    simp only [hauthor]
    refine ⟨?_, ?_, ?_, rfl, rfl, ?_⟩
    · split <;> rfl
    · split <;> simp
    · split <;> simp [madeCalls, mutations, Call.isMutation]
    · intro hpost
      simp [hpost]
  · intro err herr
    simp [herr, madeCalls, mutations, Call.isMutation, hctx]

/-- C4, amended, at a concrete input: the name `Gamma` submitted by `U1`. -/
theorem new_name_creates_team_witness :
    (botAt "U1" .teamName).userContexts "U1"
        = some (canQuitBotContextHandlerFunc .teamName) ∧
    "Gamma" ≠ "quit" ∧ "Gamma" ∉ okEnv.GetTeams [] ∧
    mutations (madeCalls (botAt "U1" .teamName)
      (HandleTeamEditionMessage okEnv (botAt "U1" .teamName) ⟨"U1", "D1", "Gamma"⟩).2)
        = [.AddTeam (newTeam okEnv "Gamma" "name-U1")] ∧
    (HandleTeamEditionMessage okEnv (botAt "U1" .teamName)
      ⟨"U1", "D1", "Gamma"⟩).2.userContexts "U1"
        = some (canQuitBotContextHandlerFunc (.editTeam "Gamma")) :=
  ⟨by decide, by decide, by decide,
   ((new_name_creates_team okEnv (botAt "U1" .teamName) ⟨"U1", "D1", "Gamma"⟩
      (by decide) (by decide) (by decide)).1 "name-U1" rfl).2.2.1,
   ((new_name_creates_team okEnv (botAt "U1" .teamName) ⟨"U1", "D1", "Gamma"⟩
      (by decide) (by decide) (by decide)).1 "name-U1" rfl).2.2.2.2.2 rfl⟩

/-! ## C6: the confirmation step of the team deletion -/

/-- C6 fails as stated: the exact confirmation text deletes nothing and leaves the
confirmation step in place when the lookup of the sender fails. -/
theorem exact_confirmation_without_deletion :
    "remove team Alpha" ≠ "quit" ∧
    "remove team Alpha" = "remove team " ++ "Alpha" ∧
    mutations (madeCalls (botAt "U1" (.confirmDelete "Alpha"))
      (HandleTeamEditionMessage lookupFailsEnv (botAt "U1" (.confirmDelete "Alpha"))
        ⟨"U1", "D1", "remove team Alpha"⟩).2) = [] ∧
    (HandleTeamEditionMessage lookupFailsEnv (botAt "U1" (.confirmDelete "Alpha"))
      ⟨"U1", "D1", "remove team Alpha"⟩).2.userContexts "U1"
        = some (canQuitBotContextHandlerFunc (.confirmDelete "Alpha")) := by
  decide

/-- C6, amended: in the confirmation step of the team `team`, for every text other
than `quit` the handler returns `false`. When the text is exactly `remove team ` followed
by `team` and the lookup of the sender succeeds, exactly one repository mutation is made,
`DeleteTeam team`, and the context of the sender is cleared; when that lookup fails,
nothing is deleted and the context stays the confirmation step. For every other text, one
differing only in letter case included, no mutation is made and the context afterwards
is the confirmation step of `team`. -/
theorem confirmation_step_deletes_on_exact_text (env : Env) (b : Bot)
    (event : MessageEvent) (team : String)
    (hctx : b.userContexts event.User
      = some (canQuitBotContextHandlerFunc (.confirmDelete team)))
    (hquit : event.Text ≠ "quit") :
    (HandleTeamEditionMessage env b event).1 = false ∧
    b.calls <+: (HandleTeamEditionMessage env b event).2.calls ∧
    (event.Text = "remove team " ++ team →
      (∀ author, env.GetUserInfo b.calls event.User = .ok author →
        mutations (madeCalls b (HandleTeamEditionMessage env b event).2)
          = [.DeleteTeam team] ∧
        (HandleTeamEditionMessage env b event).2.userContexts event.User = none) ∧
      (∀ err, env.GetUserInfo b.calls event.User = .error err →
        mutations (madeCalls b (HandleTeamEditionMessage env b event).2) = [] ∧
        (HandleTeamEditionMessage env b event).2.userContexts event.User
          = some (canQuitBotContextHandlerFunc (.confirmDelete team)))) ∧
    (event.Text ≠ "remove team " ++ team →
      mutations (madeCalls b (HandleTeamEditionMessage env b event).2) = [] ∧
      (HandleTeamEditionMessage env b event).2.userContexts event.User
        = some (canQuitBotContextHandlerFunc (.confirmDelete team))) := by
  rw [handle_eq_call env b event _ hctx hquit]
  simp only [StepFunc.call, chosenTeamToDelete, slackGetUserInfo, slackPostMessage,
    logSlackRelatedError, logInfo]
  refine ⟨?_, ?_, ?_, ?_⟩
  · repeat' split
    all_goals rfl
  · repeat' split
    all_goals simp
  · intro htext
    rw [if_pos htext]
    refine ⟨?_, ?_⟩
    · intro author hauthor
      simp [hauthor, madeCalls, mutations, Call.isMutation]
    · intro err herr
      simp [herr, madeCalls, mutations, Call.isMutation, hctx]
  · intro htext
    rw [if_neg htext]
    simp [madeCalls, mutations, Call.isMutation]

/-- C6, amended, at concrete inputs: the exact text deletes `Alpha`; the same text in
another letter case asks again. -/
theorem confirmation_step_deletes_on_exact_text_witness :
    (botAt "U1" (.confirmDelete "Alpha")).userContexts "U1"
        = some (canQuitBotContextHandlerFunc (.confirmDelete "Alpha")) ∧
    "remove team Alpha" ≠ "quit" ∧ "Remove Team Alpha" ≠ "quit" ∧
    (mutations (madeCalls (botAt "U1" (.confirmDelete "Alpha"))
        (HandleTeamEditionMessage okEnv (botAt "U1" (.confirmDelete "Alpha"))
          ⟨"U1", "D1", "remove team Alpha"⟩).2) = [.DeleteTeam "Alpha"] ∧
      (HandleTeamEditionMessage okEnv (botAt "U1" (.confirmDelete "Alpha"))
        ⟨"U1", "D1", "remove team Alpha"⟩).2.userContexts "U1" = none) ∧
    (mutations (madeCalls (botAt "U1" (.confirmDelete "Alpha"))
        (HandleTeamEditionMessage okEnv (botAt "U1" (.confirmDelete "Alpha"))
          ⟨"U1", "D1", "Remove Team Alpha"⟩).2) = [] ∧
      (HandleTeamEditionMessage okEnv (botAt "U1" (.confirmDelete "Alpha"))
        ⟨"U1", "D1", "Remove Team Alpha"⟩).2.userContexts "U1"
          = some (canQuitBotContextHandlerFunc (.confirmDelete "Alpha"))) :=
  ⟨by decide, by decide, by decide,
   ((confirmation_step_deletes_on_exact_text okEnv (botAt "U1" (.confirmDelete "Alpha"))
      ⟨"U1", "D1", "remove team Alpha"⟩ "Alpha" (by decide) (by decide)).2.2.1
        (by decide)).1 "name-U1" rfl,
   (confirmation_step_deletes_on_exact_text okEnv (botAt "U1" (.confirmDelete "Alpha"))
      ⟨"U1", "D1", "Remove Team Alpha"⟩ "Alpha" (by decide) (by decide)).2.2.2
        (by decide)⟩

/-! ## C9: a message that fails the validation of a step -/

/-- The edit step on a text without usable instruction: the step posts the notice of a
wrong choice and the prompt of the edit step, makes no repository mutation and stays
the context. -/
theorem editTeam_reprompt (env : Env) (b : Bot) (event : MessageEvent) (team : String)
    (hctx : b.userContexts event.User = some (canQuitBotContextHandlerFunc (.editTeam team)))
    (hbad : (getParams actionPattern event.Text).length = 0 ∨
      (getParams actionPattern event.Text).get "action" = "" ∨
      (getParams actionPattern event.Text).get "user" = "") :
    (StepFunc.call env (.editTeam team) b event).1 = false ∧
    b.calls <+: (StepFunc.call env (.editTeam team) b event).2.calls ∧
    [.Println (getParams actionPattern event.Text),
      .PostMessage event.Channel "Wrong choices, please try again :p or type `quit`" [],
      .PostMessage event.Channel ("What do you want to do with team" ++ team)
        ["- `add @name`: Add *@name* to team\n- `remove @name`: Remove *@name* from team"]]
      <+: madeCalls b (StepFunc.call env (.editTeam team) b event).2 ∧
    mutations (madeCalls b (StepFunc.call env (.editTeam team) b event).2) = [] ∧
    (StepFunc.call env (.editTeam team) b event).2.userContexts event.User
      = some (canQuitBotContextHandlerFunc (.editTeam team)) := by
  simp only [StepFunc.call, if_pos hbad, choosenTeamToEdit, slackPostMessage,
    logSlackRelatedError]
  split <;> simp [madeCalls, mutations, Call.isMutation, hctx]

/-- C9 fails as stated: the text `9` in the selection step over `Alpha` and `Bravo`,
when the repository now answers `Zulu` and `Aardvark` for the requester, fails the
validation and leaves as context the selection step over `Aardvark` and `Zulu`, which is
not the step the user was in. -/
theorem failed_selection_installs_new_menu :
    (botAt "U1" (.selectTeam ["Alpha", "Bravo"] .edit)).userContexts "U1"
        = some (canQuitBotContextHandlerFunc (.selectTeam ["Alpha", "Bravo"] .edit)) ∧
    "9" ≠ "quit" ∧
    strconv_Atoi "9" = (9, none) ∧ ¬ ((9 : Int) < ((["Alpha", "Bravo"].length : Nat) : Int)) ∧
    contextAfter changedTeamsEnv (botAt "U1" (.selectTeam ["Alpha", "Bravo"] .edit))
        ⟨"U1", "D1", "9"⟩
      = some (canQuitBotContextHandlerFunc (.selectTeam ["Aardvark", "Zulu"] .edit)) ∧
    contextAfter changedTeamsEnv (botAt "U1" (.selectTeam ["Alpha", "Bravo"] .edit))
        ⟨"U1", "D1", "9"⟩
      ≠ some (canQuitBotContextHandlerFunc (.selectTeam ["Alpha", "Bravo"] .edit)) := by
  decide

/-- C9, amended: for every step and every message other than `quit` that fails the
validation of the step, whatever the collaborators answer while the step asks again,
the handler returns `false` and the calls made include no repository mutation. In the
confirmation step, the name step and the edit step the prompt of the step is posted
again and the context of the sender afterwards is the same step with the same team. In
the selection step the notice of a wrong choice is posted and the teams of the requester
are read again: when the lookup of the requester fails or no team is returned, the
context stays the step; when the non-empty slice `fresh` is returned, the menu of the
sorted `fresh` is posted and the context afterwards is the selection step over the sorted
`fresh` with the same continuation. -/
theorem validation_failure_asks_again (env : Env) (b : Bot) (event : MessageEvent)
    (step : StepFunc)
    (hctx : b.userContexts event.User = some (canQuitBotContextHandlerFunc step))
    (hquit : event.Text ≠ "quit")
    (hfail : failsValidation env b event step) :
    (HandleTeamEditionMessage env b event).1 = false ∧
    b.calls <+: (HandleTeamEditionMessage env b event).2.calls ∧
    mutations (callsHandling env b event) = [] ∧
    (∀ team, step = .confirmDelete team →
      .PostMessage event.Channel
          ("Type `" ++ ("remove team " ++ team) ++ "` to delete the team or type `quit`") []
        ∈ callsHandling env b event ∧
      contextAfter env b event = some (canQuitBotContextHandlerFunc step)) ∧
    (step = .teamName →
      .PostMessage event.Channel "Team already exists, choose a new name or type `quit`" []
        ∈ callsHandling env b event ∧
      .PostMessage event.Channel "What should be the team name?" []
        ∈ callsHandling env b event ∧
      contextAfter env b event = some (canQuitBotContextHandlerFunc step)) ∧
    (∀ team, step = .editTeam team →
      (.PostMessage event.Channel "Wrong choices, please try again :p or type `quit`" []
          ∈ callsHandling env b event ∨
        .PostMessage event.Channel "Hmmmm, I couldn't find the user. Try again!" []
          ∈ callsHandling env b event) ∧
      .PostMessage event.Channel ("What do you want to do with team" ++ team)
          ["- `add @name`: Add *@name* to team\n- `remove @name`: Remove *@name* from team"]
        ∈ callsHandling env b event ∧
      contextAfter env b event = some (canQuitBotContextHandlerFunc step)) ∧
    (∀ teams cb, step = .selectTeam teams cb →
      .PostMessage event.Channel "Wrong choices, please try again :p or type `quit`" []
        ∈ callsHandling env b event ∧
      (∀ err,
        env.GetUserInfo
          (b.calls ++ [.PostMessage event.Channel
            "Wrong choices, please try again :p or type `quit`" []])
          event.User = .error err →
        contextAfter env b event = some (canQuitBotContextHandlerFunc step)) ∧
      (∀ user fresh,
        env.GetUserInfo
          (b.calls ++ [.PostMessage event.Channel
            "Wrong choices, please try again :p or type `quit`" []])
          event.User = .ok user →
        env.GetTeamsForUser
          (b.calls ++ [.PostMessage event.Channel
            "Wrong choices, please try again :p or type `quit`" [],
            .GetUserInfo event.User])
          user = fresh →
        (fresh = [] →
          .PostMessage event.Channel
              "There is no teams, use 'create team' to create a new team" []
            ∈ callsHandling env b event ∧
          contextAfter env b event = some (canQuitBotContextHandlerFunc step)) ∧
        (fresh ≠ [] →
          .PostMessage event.Channel (teamMenu (sort_Strings fresh)) []
            ∈ callsHandling env b event ∧
          contextAfter env b event
            = some (canQuitBotContextHandlerFunc
                (.selectTeam (sort_Strings fresh) cb))))) := by
  simp only [callsHandling, contextAfter]
  rw [handle_eq_call env b event step hctx hquit]
  cases step with
  | confirmDelete team =>
    simp only [failsValidation] at hfail
    simp [StepFunc.call, if_neg hfail, chosenTeamToDelete, slackPostMessage, madeCalls,
      mutations, Call.isMutation]
  | teamName =>
    have hdup : event.Text ∈ env.GetTeams b.calls := hfail
    simp [StepFunc.call, scrumGetTeams, hdup, chooseTeamName, slackPostMessage, madeCalls,
      mutations, Call.isMutation]
  | selectTeam teams cb =>
    have hbad : (strconv_Atoi event.Text).1 < 0 ∨
        (strconv_Atoi event.Text).1 ≥ (teams.length : Int) ∨
        (strconv_Atoi event.Text).2 ≠ none := by
      simp only [failsValidation] at hfail
      by_cases h1 : (strconv_Atoi event.Text).2 = none
      · by_cases h2 : (strconv_Atoi event.Text).1 < 0
        · exact Or.inl h2
        · refine Or.inr (Or.inl ?_)
          by_contra h3
          exact hfail ⟨h1, not_lt.mp h2, not_le.mp h3⟩
      · exact Or.inr (Or.inr h1)
    simp only [StepFunc.call, if_pos hbad, chooseTeamToEdit, slackGetUserInfo,
      slackPostMessage, logSlackRelatedError, scrumGetTeamsForUser, emit_calls,
      List.append_assoc, List.singleton_append]
    refine ⟨trivial, ?_, ?_, ?_, ?_, ?_, ?_⟩
    · repeat' split
      all_goals simp
    · repeat' split
      all_goals simp [madeCalls, mutations, Call.isMutation]
    · intro team h
      cases h
    · intro h
      cases h
    · intro team h
      cases h
    · intro teams' cb' h
      cases h
      refine ⟨?_, ?_, ?_⟩
      · repeat' split
        all_goals simp [madeCalls]
      · intro err herr
        simp [herr, hctx]
      · intro user fresh huser hfresh
        subst hfresh
        refine ⟨?_, ?_⟩
        · intro hnil
          simp [huser, hnil, madeCalls, hctx]
        · intro hne
          have hlen : ¬ (env.GetTeamsForUser
              (b.calls ++ [.PostMessage event.Channel
                "Wrong choices, please try again :p or type `quit`" [],
                .GetUserInfo event.User]) user).length = 0 := by
            simpa [List.length_eq_zero] using hne
          simp [huser, hlen, madeCalls]
  | editTeam team =>
    simp only [failsValidation] at hfail
    by_cases hbad : (getParams actionPattern event.Text).length = 0 ∨
        (getParams actionPattern event.Text).get "action" = "" ∨
        (getParams actionPattern event.Text).get "user" = ""
    · obtain ⟨h1, h2, h3, h4, h5⟩ := editTeam_reprompt env b event team hctx hbad
      refine ⟨h1, h2, h4, ?_, ?_, ?_, ?_⟩
      · intro team' h
        cases h
      · intro h
        cases h
      · intro team' h
        cases h
        exact ⟨Or.inl (h3.subset (by simp)), h3.subset (by simp), h5⟩
      · intro teams cb h
        cases h
    · obtain ⟨err, herr⟩ := hfail.resolve_left hbad
      simp only [StepFunc.call, if_neg hbad, choosenTeamToEdit, slackPostMessage,
        slackGetUserInfo, logSlackRelatedError, emit_calls, List.append_assoc,
        List.singleton_append, herr]
      split <;> simp [madeCalls, mutations, Call.isMutation, hctx]

/-- C9, amended, at a concrete input: the index `9` in a menu of two teams, while the
repository still answers the same two teams. -/
theorem validation_failure_asks_again_witness :
    (botAt "U1" (.selectTeam ["Alpha", "Bravo"] .delete)).userContexts "U1"
        = some (canQuitBotContextHandlerFunc (.selectTeam ["Alpha", "Bravo"] .delete)) ∧
    "9" ≠ "quit" ∧
    failsValidation okEnv (botAt "U1" (.selectTeam ["Alpha", "Bravo"] .delete))
      ⟨"U1", "D1", "9"⟩ (.selectTeam ["Alpha", "Bravo"] .delete) ∧
    (HandleTeamEditionMessage okEnv (botAt "U1" (.selectTeam ["Alpha", "Bravo"] .delete))
      ⟨"U1", "D1", "9"⟩).1 = false ∧
    mutations (callsHandling okEnv (botAt "U1" (.selectTeam ["Alpha", "Bravo"] .delete))
      ⟨"U1", "D1", "9"⟩) = [] ∧
    callsHandling okEnv (botAt "U1" (.selectTeam ["Alpha", "Bravo"] .delete))
        ⟨"U1", "D1", "9"⟩
      = [.PostMessage "D1" "Wrong choices, please try again :p or type `quit`" [],
          .GetUserInfo "U1", .GetTeamsForUser "name-U1",
          .PostMessage "D1" "Choose a team :\n0 - Alpha\n1 - Bravo" []] ∧
    contextAfter okEnv (botAt "U1" (.selectTeam ["Alpha", "Bravo"] .delete))
        ⟨"U1", "D1", "9"⟩
      = some (canQuitBotContextHandlerFunc (.selectTeam ["Alpha", "Bravo"] .delete)) :=
  ⟨by decide, by decide, by simp only [failsValidation]; decide,
   (validation_failure_asks_again okEnv (botAt "U1" (.selectTeam ["Alpha", "Bravo"] .delete))
      ⟨"U1", "D1", "9"⟩ (.selectTeam ["Alpha", "Bravo"] .delete) (by decide) (by decide)
      (by simp only [failsValidation]; decide)).1,
   (validation_failure_asks_again okEnv (botAt "U1" (.selectTeam ["Alpha", "Bravo"] .delete))
      ⟨"U1", "D1", "9"⟩ (.selectTeam ["Alpha", "Bravo"] .delete) (by decide) (by decide)
      (by simp only [failsValidation]; decide)).2.2.1,
   by decide,
   ((((validation_failure_asks_again okEnv
      (botAt "U1" (.selectTeam ["Alpha", "Bravo"] .delete))
      ⟨"U1", "D1", "9"⟩ (.selectTeam ["Alpha", "Bravo"] .delete) (by decide) (by decide)
      (by simp only [failsValidation]; decide)).2.2.2.2.2.2
        ["Alpha", "Bravo"] .delete rfl).2.2 "name-U1" ["Bravo", "Alpha"] rfl rfl).2
          (by decide)).2⟩

/-! ## C7: the parameter extraction of the edit step -/

/-- C7: the extraction with the pattern of the edit step on `add <@U123>` is exactly
the mapping of `action` to `add` and of `user` to `U123`; on `addremove <@U123>` it is
the empty mapping, which is no usable extraction, so that the edit step handling that
text posts the notice of a wrong choice and its prompt again, returns `false`, makes no
repository mutation and stays the context of the sender. -/
theorem extraction_of_the_edit_pattern (env : Env) (b : Bot) (event : MessageEvent)
    (team : String)
    (hctx : b.userContexts event.User = some (canQuitBotContextHandlerFunc (.editTeam team)))
    (htext : event.Text = "addremove <@U123>") :
    getParams actionPattern "add <@U123>" = [("action", "add"), ("user", "U123")] ∧
    getParams actionPattern "addremove <@U123>" = [] ∧
    ((getParams actionPattern event.Text).length = 0 ∨
      (getParams actionPattern event.Text).get "action" = "" ∨
      (getParams actionPattern event.Text).get "user" = "") ∧
    (HandleTeamEditionMessage env b event).1 = false ∧
    b.calls <+: (HandleTeamEditionMessage env b event).2.calls ∧
    [.Println [],
      .PostMessage event.Channel "Wrong choices, please try again :p or type `quit`" [],
      .PostMessage event.Channel ("What do you want to do with team" ++ team)
        ["- `add @name`: Add *@name* to team\n- `remove @name`: Remove *@name* from team"]]
      <+: callsHandling env b event ∧
    mutations (callsHandling env b event) = [] ∧
    contextAfter env b event = some (canQuitBotContextHandlerFunc (.editTeam team)) := by
  have hempty : getParams actionPattern event.Text = [] := by
    rw [htext]
    decide
  have hbad : (getParams actionPattern event.Text).length = 0 ∨
      (getParams actionPattern event.Text).get "action" = "" ∨
      (getParams actionPattern event.Text).get "user" = "" := by
    left
    rw [hempty]
    rfl
  have hquit : event.Text ≠ "quit" := by
    rw [htext]
    decide
  obtain ⟨h1, h2, h3, h4, h5⟩ := editTeam_reprompt env b event team hctx hbad
  rw [hempty] at h3
  simp only [callsHandling, contextAfter]
  rw [handle_eq_call env b event _ hctx hquit]
  exact ⟨by decide, by decide, hbad, h1, h2, h3, h4, h5⟩

/-- C7 at a concrete input: `addremove <@U123>` sent by `U1` in the edit step of
`Alpha`. -/
theorem extraction_of_the_edit_pattern_witness :
    (botAt "U1" (.editTeam "Alpha")).userContexts "U1"
        = some (canQuitBotContextHandlerFunc (.editTeam "Alpha")) ∧
    (MessageEvent.mk "U1" "D1" "addremove <@U123>").Text = "addremove <@U123>" ∧
    getParams actionPattern "add <@U123>" = [("action", "add"), ("user", "U123")] ∧
    getParams actionPattern "addremove <@U123>" = [] ∧
    callsHandling okEnv (botAt "U1" (.editTeam "Alpha")) ⟨"U1", "D1", "addremove <@U123>"⟩
      = [.Println [],
          .PostMessage "D1" "Wrong choices, please try again :p or type `quit`" [],
          .PostMessage "D1" "What do you want to do with teamAlpha"
            ["- `add @name`: Add *@name* to team\n- `remove @name`: Remove *@name* from team"]] ∧
    mutations (callsHandling okEnv (botAt "U1" (.editTeam "Alpha"))
      ⟨"U1", "D1", "addremove <@U123>"⟩) = [] ∧
    contextAfter okEnv (botAt "U1" (.editTeam "Alpha")) ⟨"U1", "D1", "addremove <@U123>"⟩
      = some (canQuitBotContextHandlerFunc (.editTeam "Alpha")) :=
  ⟨by decide, rfl,
   (extraction_of_the_edit_pattern okEnv (botAt "U1" (.editTeam "Alpha"))
      ⟨"U1", "D1", "addremove <@U123>"⟩ "Alpha" (by decide) rfl).1,
   (extraction_of_the_edit_pattern okEnv (botAt "U1" (.editTeam "Alpha"))
      ⟨"U1", "D1", "addremove <@U123>"⟩ "Alpha" (by decide) rfl).2.1,
   by decide,
   (extraction_of_the_edit_pattern okEnv (botAt "U1" (.editTeam "Alpha"))
      ⟨"U1", "D1", "addremove <@U123>"⟩ "Alpha" (by decide) rfl).2.2.2.2.2.2.1,
   (extraction_of_the_edit_pattern okEnv (botAt "U1" (.editTeam "Alpha"))
      ⟨"U1", "D1", "addremove <@U123>"⟩ "Alpha" (by decide) rfl).2.2.2.2.2.2.2⟩

/-! ## C8: the add/remove instruction of the edit step -/

/-- C8 fails as stated: `ADD <@U2>` matches the pattern and the mentioned user is
found, but no membership mutation is made; and with `add <@U2>`, when the lookup of the
actor fails after the mutation, the context is not cleared. -/
theorem instruction_without_mutation_or_clearing :
    (getParams actionPattern "ADD <@U2>" = [("action", "ADD"), ("user", "U2")] ∧
      okEnv.GetUserInfo [] "U2" = .ok "name-U2" ∧
      mutations (madeCalls (botAt "U1" (.editTeam "Alpha"))
        (HandleTeamEditionMessage okEnv (botAt "U1" (.editTeam "Alpha"))
          ⟨"U1", "D1", "ADD <@U2>"⟩).2) = []) ∧
    (getParams actionPattern "add <@U2>" = [("action", "add"), ("user", "U2")] ∧
      actorUnknownEnv.GetUserInfo [] "U2" = .ok "name-U2" ∧
      mutations (madeCalls (botAt "U1" (.editTeam "Alpha"))
        (HandleTeamEditionMessage actorUnknownEnv (botAt "U1" (.editTeam "Alpha"))
          ⟨"U1", "D1", "add <@U2>"⟩).2) = [.AddToTeam "Alpha" "name-U2"] ∧
      (HandleTeamEditionMessage actorUnknownEnv (botAt "U1" (.editTeam "Alpha"))
        ⟨"U1", "D1", "add <@U2>"⟩).2.userContexts "U1"
          = some (canQuitBotContextHandlerFunc (.editTeam "Alpha"))) :=
  ⟨⟨by decide, rfl, by decide⟩, by decide, rfl, by decide, by decide⟩

/-- C8, amended: in the edit step of the team `team`, for every text other than `quit`
whose extraction is usable and whose mentioned user is found with the name `username`,
the handler returns `false`; when the extracted action is `add` (resp. `remove`) in lower
case, exactly one repository mutation is made, `AddToTeam team username` (resp.
`RemoveFromTeam team username`), and the context of the actor is cleared when the lookup
of the actor that follows succeeds, and stays the edit step when it fails. -/
theorem edit_step_applies_instruction (env : Env) (b : Bot) (event : MessageEvent)
    (team username : String) (params : StringMap)
    (hctx : b.userContexts event.User = some (canQuitBotContextHandlerFunc (.editTeam team)))
    (hquit : event.Text ≠ "quit")
    (hparams : getParams actionPattern event.Text = params)
    (hlen : params.length ≠ 0) (haction : params.get "action" ≠ "")
    (huser : params.get "user" ≠ "")
    (hfound : env.GetUserInfo
      (b.calls ++ [.Println params,
        .LogError ("Fail to get user information. user:" ++ params.get "user") none])
      (params.get "user") = .ok username) :
    (HandleTeamEditionMessage env b event).1 = false ∧
    b.calls <+: (HandleTeamEditionMessage env b event).2.calls ∧
    (params.get "action" = "add" →
      mutations (madeCalls b (HandleTeamEditionMessage env b event).2)
        = [.AddToTeam team username] ∧
      ((∃ author, env.GetUserInfo
          (b.calls ++ callsBeforeActorLookup params event (.AddToTeam team username)
            ("I've added @" ++ username ++ " to team " ++ team)) event.User = .ok author) →
        (HandleTeamEditionMessage env b event).2.userContexts event.User = none) ∧
      ((∃ err, env.GetUserInfo
          (b.calls ++ callsBeforeActorLookup params event (.AddToTeam team username)
            ("I've added @" ++ username ++ " to team " ++ team)) event.User = .error err) →
        (HandleTeamEditionMessage env b event).2.userContexts event.User
          = some (canQuitBotContextHandlerFunc (.editTeam team)))) ∧
    (params.get "action" = "remove" →
      mutations (madeCalls b (HandleTeamEditionMessage env b event).2)
        = [.RemoveFromTeam team username] ∧
      ((∃ author, env.GetUserInfo
          (b.calls ++ callsBeforeActorLookup params event (.RemoveFromTeam team username)
            ("I've removed @" ++ username ++ " to team " ++ team)) event.User = .ok author) →
        (HandleTeamEditionMessage env b event).2.userContexts event.User = none) ∧
      ((∃ err, env.GetUserInfo
          (b.calls ++ callsBeforeActorLookup params event (.RemoveFromTeam team username)
            ("I've removed @" ++ username ++ " to team " ++ team)) event.User = .error err) →
        (HandleTeamEditionMessage env b event).2.userContexts event.User
          = some (canQuitBotContextHandlerFunc (.editTeam team)))) := by
  rw [handle_eq_call env b event _ hctx hquit]
  have hgood : ¬ (params.length = 0 ∨ params.get "action" = "" ∨ params.get "user" = "") := by
    simp [hlen, haction, huser]
  simp only [StepFunc.call, hparams, if_neg hgood, slackGetUserInfo, logSlackRelatedError,
    emit_calls, List.append_assoc, List.singleton_append, hfound, chooseTeamAction,
    slackPostMessage, logInfo, callsBeforeActorLookup]
  refine ⟨?_, ?_, ?_, ?_⟩
  · repeat' split
    all_goals rfl
  · repeat' split
    all_goals simp
  · intro hadd
    rw [if_pos hadd]
    refine ⟨?_, ?_, ?_⟩
    · split <;> simp [madeCalls, mutations, Call.isMutation]
    · rintro ⟨author, hauthor⟩
      simp [hauthor]
    · rintro ⟨err, herr⟩
      simp [herr, hctx]
  · intro hremove
    have hnotadd : ¬ params.get "action" = "add" := by
      rw [hremove]
      decide
    rw [if_neg hnotadd, if_pos hremove]
    refine ⟨?_, ?_, ?_⟩
    · split <;> simp [madeCalls, mutations, Call.isMutation]
    · rintro ⟨author, hauthor⟩
      simp [hauthor]
    · rintro ⟨err, herr⟩
      simp [herr, hctx]

/-- C8, amended, at a concrete input: `remove <@U2>` in the edit step of `Alpha`. -/
theorem edit_step_applies_instruction_witness :
    (botAt "U1" (.editTeam "Alpha")).userContexts "U1"
        = some (canQuitBotContextHandlerFunc (.editTeam "Alpha")) ∧
    "remove <@U2>" ≠ "quit" ∧
    getParams actionPattern "remove <@U2>" = [("action", "remove"), ("user", "U2")] ∧
    (HandleTeamEditionMessage okEnv (botAt "U1" (.editTeam "Alpha"))
      ⟨"U1", "D1", "remove <@U2>"⟩).1 = false ∧
    mutations (madeCalls (botAt "U1" (.editTeam "Alpha"))
      (HandleTeamEditionMessage okEnv (botAt "U1" (.editTeam "Alpha"))
        ⟨"U1", "D1", "remove <@U2>"⟩).2) = [.RemoveFromTeam "Alpha" "name-U2"] ∧
    (HandleTeamEditionMessage okEnv (botAt "U1" (.editTeam "Alpha"))
      ⟨"U1", "D1", "remove <@U2>"⟩).2.userContexts "U1" = none :=
  ⟨by decide, by decide, by decide,
   (edit_step_applies_instruction okEnv (botAt "U1" (.editTeam "Alpha"))
      ⟨"U1", "D1", "remove <@U2>"⟩ "Alpha" "name-U2" [("action", "remove"), ("user", "U2")]
      (by decide) (by decide) (by decide) (by decide) (by decide) (by decide) rfl).1,
   ((edit_step_applies_instruction okEnv (botAt "U1" (.editTeam "Alpha"))
      ⟨"U1", "D1", "remove <@U2>"⟩ "Alpha" "name-U2" [("action", "remove"), ("user", "U2")]
      (by decide) (by decide) (by decide) (by decide) (by decide) (by decide) rfl).2.2.2
        (by decide)).1,
   ((edit_step_applies_instruction okEnv (botAt "U1" (.editTeam "Alpha"))
      ⟨"U1", "D1", "remove <@U2>"⟩ "Alpha" "name-U2" [("action", "remove"), ("user", "U2")]
      (by decide) (by decide) (by decide) (by decide) (by decide) (by decide) rfl).2.2.2
        (by decide)).2.1 ⟨"name-U1", rfl⟩⟩

/-! ## C5: the menu of the team selection -/

/-- The digit character of `d` reads back as `d`. -/
theorem digitVal_digitChar (d : Nat) (h : d < 10) : digitVal (Nat.digitChar d) = some d := by
  interval_cases d <;> decide

/-- Reading a concatenation of digit runs. -/
theorem parseDigits_append (xs ys : List Char) (acc : Nat) :
    parseDigits (xs ++ ys) acc = (parseDigits xs acc).bind (parseDigits ys) := by
  induction xs generalizing acc with
  | nil => simp [parseDigits]
  | cons c cs ih =>
    simp only [List.cons_append, parseDigits]
    cases digitVal c with
    | none => simp
    | some d => simp [ih]

/-- The digits produced by `Nat.toDigitsCore` come in front of the accumulator. -/
theorem toDigitsCore_append (fuel n : Nat) (ds : List Char) :
    Nat.toDigitsCore 10 fuel n ds = Nat.toDigitsCore 10 fuel n [] ++ ds := by
  induction fuel generalizing n ds with
  | zero => simp [Nat.toDigitsCore]
  | succ fuel ih =>
    simp only [Nat.toDigitsCore]
    split
    · simp
    · rw [ih (n / 10) (Nat.digitChar (n % 10) :: ds), ih (n / 10) [Nat.digitChar (n % 10)]]
      simp

/-- The decimal digits of `n` read back as `n`. -/
theorem parseDigits_toDigitsCore (fuel n : Nat) (h : n < fuel) :
    parseDigits (Nat.toDigitsCore 10 fuel n []) 0 = some n := by
  induction fuel generalizing n with
  | zero => omega
  | succ fuel ih =>
    simp only [Nat.toDigitsCore]
    split
    · rename_i h0
      have hn : n < 10 := by omega
      simp [parseDigits, digitVal_digitChar (n % 10) (Nat.mod_lt _ (by decide))]
      omega
    · rename_i h0
      rw [toDigitsCore_append, parseDigits_append, ih (n / 10) (by omega)]
      simp [parseDigits, digitVal_digitChar (n % 10) (Nat.mod_lt _ (by decide))]
      omega

/-- A number has at least one decimal digit. -/
theorem toDigitsCore_ne_nil (fuel n : Nat) :
    Nat.toDigitsCore 10 (fuel + 1) n [] ≠ [] := by
  simp only [Nat.toDigitsCore]
  split
  · simp
  · rw [toDigitsCore_append]
    simp

/-- The function `strconv.Atoi` reads the decimal form of an index below `2^63` back. -/
theorem strconv_Atoi_repr (i : Nat) (h : i < 2 ^ 63) :
    strconv_Atoi (Nat.repr i) = ((i : Int), none) := by
  have hdata : (Nat.repr i).data = Nat.toDigitsCore 10 (i + 1) i [] := rfl
  have hparse := parseDigits_toDigitsCore (i + 1) i (Nat.lt_succ_self i)
  have hne := toDigitsCore_ne_nil i i
  rw [← hdata] at hparse hne
  unfold strconv_Atoi
  cases hcs : (Nat.repr i).data with
  | nil => exact absurd hcs hne
  | cons c cs =>
    rw [hcs] at hparse
    have hc : digitVal c ≠ none := by
      intro hnone
      simp [parseDigits, hnone] at hparse
    have hminus : c ≠ '-' := by
      rintro rfl
      exact hc (by decide)
    have hplus : c ≠ '+' := by
      rintro rfl
      exact hc (by decide)
    simpa [hminus, hplus, hparse] using h

/-- The sorted slice holds the same names. -/
theorem sort_Strings_perm (teams : List String) : (sort_Strings teams).Perm teams :=
  List.perm_insertionSort strLE teams

/-- The sorted slice is in increasing order. -/
theorem sort_Strings_sorted (teams : List String) : (sort_Strings teams).Sorted strLE :=
  List.sorted_insertionSort strLE teams

/-- The line of the menu for the name at index `i`. -/
theorem menu_lines (teams : List String) (i : Nat) (name : String)
    (h : teams[i]? = some name) :
    (teams.enum.map (fun it => sprintfChoice it.1 it.2))[i]?
      = some (Nat.repr i ++ " - " ++ name) := by
  simp [List.getElem?_map, List.getElem?_enum, h, sprintfChoice]

/-- C5: when the lookup of the requester answers `user` and the repository returns for
`user` a non-empty slice `teams` (of a length that fits a Go `int`), `chooseTeamToEdit`
posts the menu whose line `i`, counting from 0, is `i - name` for the `i`-th name of the
slice sorted in increasing lexicographic order, and installs the selection step for the
requester; and a message of a user in that step whose text is the decimal form of an
index `i` of the sorted slice is answered by the continuation called with exactly the
`i`-th name. -/
theorem menu_is_sorted_and_selects_by_index (env : Env) (b : Bot) (event : MessageEvent)
    (cb : ChosenTeamFunc) (user : String) (teams : List String)
    (huser : env.GetUserInfo b.calls event.User = .ok user)
    (hteams : env.GetTeamsForUser (b.calls ++ [.GetUserInfo event.User]) user = teams)
    (hne : teams ≠ [])
    (hlen : teams.length < 2 ^ 63) :
    (sort_Strings teams).Perm teams ∧
    (sort_Strings teams).Sorted strLE ∧
    (∃ lines : List String,
      (chooseTeamToEdit env b event cb).2.calls
        = b.calls ++ [.GetUserInfo event.User, .GetTeamsForUser user,
            .PostMessage event.Channel ("Choose a team :\n" ++ "\n".intercalate lines) []] ∧
      lines.length = teams.length ∧
      ∀ i name, (sort_Strings teams)[i]? = some name →
        lines[i]? = some (Nat.repr i ++ " - " ++ name)) ∧
    (chooseTeamToEdit env b event cb).2.userContexts event.User
      = some (canQuitBotContextHandlerFunc (.selectTeam (sort_Strings teams) cb)) ∧
    (∀ (b1 : Bot) (next : MessageEvent) (i : Nat) (name : String),
      b1.userContexts next.User
        = some (canQuitBotContextHandlerFunc (.selectTeam (sort_Strings teams) cb)) →
      (sort_Strings teams)[i]? = some name →
      next.Text = Nat.repr i →
      HandleTeamEditionMessage env b1 next = cb.call env b1 next name) := by
  have hlen0 : ¬ teams.length = 0 := by
    simpa [List.length_eq_zero] using hne
  have hsortlen : (sort_Strings teams).length = teams.length :=
    (sort_Strings_perm teams).length_eq
  refine ⟨sort_Strings_perm teams, sort_Strings_sorted teams, ?_, ?_, ?_⟩
  · refine ⟨(sort_Strings teams).enum.map (fun it => sprintfChoice it.1 it.2), ?_, ?_, ?_⟩
    · simp [chooseTeamToEdit, slackGetUserInfo, huser, scrumGetTeamsForUser, hteams, hlen0,
        slackPostMessage, teamMenu]
    · simp [hsortlen]
    · intro i name hi
      exact menu_lines (sort_Strings teams) i name hi
  · simp [chooseTeamToEdit, slackGetUserInfo, huser, scrumGetTeamsForUser, hteams, hlen0,
      slackPostMessage]
  · intro b1 next i name hctx hi htext
    have hi' : i < (sort_Strings teams).length := by
      rcases List.getElem?_eq_some.mp hi with ⟨hlt, _⟩
      exact hlt
    have hatoi := strconv_Atoi_repr i (by omega)
    have hquit : next.Text ≠ "quit" := by
      intro hq
      have hsyntax : strconv_Atoi "quit" = (0, some "invalid syntax") := by decide
      rw [← htext, hq, hsyntax] at hatoi
      simp at hatoi
    rw [handle_eq_call env b1 next _ hctx hquit]
    have hgood : ¬ ((i : Int) < 0 ∨ (i : Int) ≥ ((sort_Strings teams).length : Int) ∨
        (none : error) ≠ none) := by
      simp
      omega
    have hname : (sort_Strings teams).getD i "" = name := by
      simp [List.getD_eq_getElem?_getD, hi]
    simp only [StepFunc.call, htext, hatoi, if_neg hgood, Int.toNat_ofNat, hname]

/-- C5 at the input of the spec: for the teams `Bravo` and `Alpha`, index 0 is `Alpha`,
index 1 is `Bravo`, and the text `1` goes on with `Bravo`. -/
theorem menu_is_sorted_and_selects_by_index_witness :
    okEnv.GetUserInfo idleBot.calls "U1" = .ok "name-U1" ∧
    okEnv.GetTeamsForUser (idleBot.calls ++ [.GetUserInfo "U1"]) "name-U1"
      = ["Bravo", "Alpha"] ∧
    ["Bravo", "Alpha"] ≠ [] ∧ ["Bravo", "Alpha"].length < 2 ^ 63 ∧
    sort_Strings ["Bravo", "Alpha"] = ["Alpha", "Bravo"] ∧
    (chooseTeamToEdit okEnv idleBot ⟨"U1", "D1", "edit team"⟩ .edit).2.calls
      = [.GetUserInfo "U1", .GetTeamsForUser "name-U1",
          .PostMessage "D1" "Choose a team :\n0 - Alpha\n1 - Bravo" []] ∧
    HandleTeamEditionMessage okEnv
        (chooseTeamToEdit okEnv idleBot ⟨"U1", "D1", "edit team"⟩ .edit).2 ⟨"U1", "D1", "1"⟩
      = ChosenTeamFunc.call okEnv .edit
          (chooseTeamToEdit okEnv idleBot ⟨"U1", "D1", "edit team"⟩ .edit).2
          ⟨"U1", "D1", "1"⟩ "Bravo" :=
  ⟨rfl, rfl, by decide, by decide, by decide, by decide,
   (menu_is_sorted_and_selects_by_index okEnv idleBot ⟨"U1", "D1", "edit team"⟩ .edit
      "name-U1" ["Bravo", "Alpha"] rfl rfl (by decide) (by decide)).2.2.2.2
      (chooseTeamToEdit okEnv idleBot ⟨"U1", "D1", "edit team"⟩ .edit).2 ⟨"U1", "D1", "1"⟩
      1 "Bravo" (by decide) (by decide) (by decide)⟩

end Scrumpolice
